import Mathlib

/-!
Shallow embedding of the conversion-and-correction-learning pipeline of the
`converter` repository: the review decision state machine of
`src/preload.js`, the pattern store of `server/supabase_schema.sql`, the
credit-ledger IPC handler of `src/main.js`, and the PDF classifier of the
engine documentation.
-/

namespace Converter

/-! ## JS string primitives

The review code manipulates decision strings with `s.startsWith(p)` and
`s.slice(n)`.  These are embedded on the character list of the string so
that the kernel can evaluate them on concrete inputs (for the prefixes
involved, all ASCII, the JS code-unit semantics and the character
semantics agree). -/

/-- JS `s.startsWith(p)`. -/
def jsStartsWith (s p : String) : Bool := p.data.isPrefixOf s.data

/-- JS `s.slice(n)` for a non-negative `n`. -/
def jsSlice (s : String) (n : Nat) : String := String.mk (s.data.drop n)

/-! ## Review state machine (src/preload.js) -/

/-- One machine-proposed correction, as read from a `_corrections.json`
file into `correctionState.corrections` (src/preload.js).  JS string
fields that may be absent are modelled as `""`. -/
structure CorrectionCandidate where
  location : String
  original : String
  corrected : String
  category : String
  reason : String
deriving Repr, DecidableEq

/-- The `correctionState.decisions` object: a partial map from candidate
index to the decision string (`"confirmed"`, `"rejected"`, or
`"edited:<value>"`); `none` models a JS `undefined` entry. -/
abbrev DecisionMap : Type := Nat → Option String

/-- The review-session state held in `correctionState` (src/preload.js),
with the implicit session phase made explicit: `saved` records whether
`saveCorrectionReview` has completed for the current file. -/
structure CorrectionState where
  currentFile : Option String
  corrections : List CorrectionCandidate
  decisions : DecisionMap
  saved : Bool

theorem CorrectionState.ext_local {a b : CorrectionState}
    (h1 : a.currentFile = b.currentFile) (h2 : a.corrections = b.corrections)
    (h3 : a.decisions = b.decisions) (h4 : a.saved = b.saved) : a = b := by
  cases a; cases b; cases h1; cases h2; cases h3; cases h4; rfl

/-- `handleCorrectionDecision(index, decision)` of src/preload.js:
`correctionState.decisions[index] = decision` (the re-render call has no
effect on the decision state, and the session is not saved here). -/
def handleCorrectionDecision (s : CorrectionState) (index : Nat) (decision : String) :
    CorrectionState :=
  { s with decisions := fun j => if j = index then some decision else s.decisions j }

/-- The `forEach` body of `confirmAllCorrections` (src/preload.js), folded
over the candidate indices:
`if (!decisions[index]) decisions[index] = 'confirmed'`. -/
def confirmLoop (indices : List Nat) (ds : DecisionMap) : DecisionMap :=
  indices.foldl
    (fun ds index =>
      if ds index = none then (fun j => if j = index then some "confirmed" else ds j)
      else ds)
    ds

/-- `confirmAllCorrections()` of src/preload.js. -/
def confirmAllCorrections (s : CorrectionState) : CorrectionState :=
  { s with decisions := confirmLoop (List.range s.corrections.length) s.decisions }

theorem confirmLoop_apply (indices : List Nat) (ds : DecisionMap) (j : Nat) :
    confirmLoop indices ds j =
      if j ∈ indices ∧ ds j = none then some "confirmed" else ds j := by
  induction indices generalizing ds with
  | nil => simp [confirmLoop]
  | cons i rest ih =>
    simp only [confirmLoop, List.foldl_cons] at ih ⊢
    rw [ih]
    by_cases hji : j = i
    · subst hji
      cases hdj : ds j with
      | none => simp [hdj]
      | some v => simp [hdj]
    · cases hdi : ds i with
      | none => simp [hdi, hji, List.mem_cons]
      | some v => simp [hdi, hji, List.mem_cons]

/-- C4: the bulk confirm-all-remaining operation assigns `confirmed` to
every candidate with no recorded decision and leaves every
already-decided candidate's decision unchanged. -/
theorem confirmAllCorrections_spec (s : CorrectionState) (j : Nat) :
    (confirmAllCorrections s).decisions j =
      if j < s.corrections.length ∧ s.decisions j = none then some "confirmed"
      else s.decisions j := by
  have h := confirmLoop_apply (List.range s.corrections.length) s.decisions j
  simpa [confirmAllCorrections, List.mem_range] using h

/-- C5: recording a decision overwrites any prior decision for that
candidate, recording it twice equals recording it once, and recording a
decision never changes the saved/terminal flag of the session. -/
theorem handleCorrectionDecision_spec (s : CorrectionState) (i : Nat) (d : String) :
    handleCorrectionDecision (handleCorrectionDecision s i d) i d
        = handleCorrectionDecision s i d
    ∧ (handleCorrectionDecision s i d).decisions i = some d
    ∧ (handleCorrectionDecision s i d).saved = s.saved := by
  refine ⟨?_, by simp [handleCorrectionDecision], rfl⟩
  refine CorrectionState.ext_local rfl rfl ?_ rfl
  funext j
  by_cases h : j = i <;> simp [handleCorrectionDecision, h]

/-- One element pushed onto `reviewResult.decisions` by
`saveCorrectionReview` (src/preload.js): the candidate's fields spread
together with the normalized decision and the edited value. -/
structure ReviewDecisionEntry where
  location : String
  original : String
  corrected : String
  category : String
  reason : String
  decision : String
  edited_value : Option String
deriving Repr, DecidableEq

/-- One element pushed onto `correctionsToLearn` by
`saveCorrectionReview` (src/preload.js), later forwarded to
`window.lawpro.collectCorrections`. -/
structure LearnEntry where
  original : String
  corrected : String
  file_path : String
  context : String
  category : String
  reason : String
  decision : String
deriving Repr, DecidableEq

/-- The `reviewResult.decisions.push` part of the `forEach` body of
`saveCorrectionReview`: `decision = decisions[index] || 'pending'`,
`isEdited = decision.startsWith('edited:')`, entry decision is
`'edited'` when edited and the raw decision otherwise, and
`edited_value` is `decision.slice(7)` when edited, else null. -/
def reviewEntryOf (c : CorrectionCandidate) (d : Option String) : ReviewDecisionEntry :=
  let decision := d.getD "pending"
  let isEdited := jsStartsWith decision "edited:"
  { location := c.location
    original := c.original
    corrected := c.corrected
    category := c.category
    reason := c.reason
    decision := if isEdited then "edited" else decision
    edited_value := if isEdited then some (jsSlice decision 7) else none }

/-- The conditional `correctionsToLearn.push` part of the `forEach` body
of `saveCorrectionReview`: only a `'confirmed'` or `'edited:…'` decision
produces an entry, with the edited value as the corrected text and
`category || 'unknown'` (the JS `location || ''` and `reason || ''` are
the identity on strings). -/
def learnEntryOf (file : String) (c : CorrectionCandidate) (d : Option String) :
    Option LearnEntry :=
  let decision := d.getD "pending"
  let isEdited := jsStartsWith decision "edited:"
  if decision = "confirmed" ∨ isEdited = true then
    some
      { original := c.original
        corrected := if isEdited then jsSlice decision 7 else c.corrected
        file_path := file
        context := c.location
        category := if c.category = "" then "unknown" else c.category
        reason := c.reason
        decision := if isEdited then "edited" else "confirmed" }
  else none

/-- The single `corrections.forEach` loop of `saveCorrectionReview`,
building `reviewResult.decisions` and `correctionsToLearn` in one pass
over the candidates, carrying the running index. -/
def saveLoop (file : String) (ds : DecisionMap) :
    Nat → List CorrectionCandidate → List ReviewDecisionEntry × List LearnEntry
  | _, [] => ([], [])
  | i, c :: rest =>
    let tail := saveLoop file ds (i + 1) rest
    (reviewEntryOf c (ds i) :: tail.1, (learnEntryOf file c (ds i)).toList ++ tail.2)

/-- The pure core of `saveCorrectionReview` (src/preload.js): from the
current file, candidate list, and decision map, the persisted review
record entries and the list forwarded for pattern learning. -/
def saveCorrectionReviewCore (file : String) (cs : List CorrectionCandidate)
    (ds : DecisionMap) : List ReviewDecisionEntry × List LearnEntry :=
  saveLoop file ds 0 cs

theorem saveLoop_fst (file : String) (ds : DecisionMap) (cs : List CorrectionCandidate)
    (i : Nat) :
    (saveLoop file ds i cs).1 =
      (List.enumFrom i cs).map (fun ic => reviewEntryOf ic.2 (ds ic.1)) := by
  induction cs generalizing i with
  | nil => simp [saveLoop]
  | cons c rest ih => simp [saveLoop, List.enumFrom, ih]

theorem saveLoop_snd (file : String) (ds : DecisionMap) (cs : List CorrectionCandidate)
    (i : Nat) :
    (saveLoop file ds i cs).2 =
      (List.enumFrom i cs).filterMap (fun ic => learnEntryOf file ic.2 (ds ic.1)) := by
  induction cs generalizing i with
  | nil => simp [saveLoop]
  | cons c rest ih =>
    cases h : learnEntryOf file c (ds i) with
    | none => simp [saveLoop, List.enumFrom, List.filterMap_cons, h, ih]
    | some e => simp [saveLoop, List.enumFrom, List.filterMap_cons, h, ih]

theorem jsStartsWith_pending : jsStartsWith "pending" "edited:" = false := by decide

theorem learnEntryOf_decision (file : String) (c : CorrectionCandidate)
    (d : Option String) (e : LearnEntry) (h : learnEntryOf file c d = some e) :
    e.decision = "confirmed" ∨ e.decision = "edited" := by
  by_cases hc : (d.getD "pending") = "confirmed"
      ∨ jsStartsWith (d.getD "pending") "edited:" = true
  · simp only [learnEntryOf] at h
    rw [if_pos hc] at h
    have he2 := Option.some.inj h
    subst he2
    by_cases he : jsStartsWith (d.getD "pending") "edited:" = true <;> simp [he]
  · simp only [learnEntryOf] at h
    rw [if_neg hc] at h
    exact absurd h (by simp)

theorem learnEntryOf_rejected_pending (file : String) (c : CorrectionCandidate)
    (d : Option String) (h : d = some "rejected" ∨ d = none) :
    learnEntryOf file c d = none := by
  rcases h with h | h <;> subst h <;> rfl

/-- C1: saving a review produces exactly one decision entry per
candidate; every candidate without a recorded decision is persisted with
disposition `pending`; the forwarded learning list is exactly the
candidates with a `confirmed` or `edited:` decision (with the edited
value as the corrected text, via `learnEntryOf`); a `rejected` or
undecided candidate never produces a forwarded entry. -/
theorem saveCorrectionReview_spec (file : String) (cs : List CorrectionCandidate)
    (ds : DecisionMap) :
    (saveCorrectionReviewCore file cs ds).1.length = cs.length
    ∧ (∀ j, j < cs.length → ds j = none →
        ((saveCorrectionReviewCore file cs ds).1[j]?).map ReviewDecisionEntry.decision
          = some "pending")
    ∧ (saveCorrectionReviewCore file cs ds).2
        = (List.enumFrom 0 cs).filterMap (fun ic => learnEntryOf file ic.2 (ds ic.1))
    ∧ (∀ e ∈ (saveCorrectionReviewCore file cs ds).2,
        e.decision = "confirmed" ∨ e.decision = "edited")
    ∧ (∀ (c : CorrectionCandidate) (d : Option String),
        d = some "rejected" ∨ d = none → learnEntryOf file c d = none) := by
  refine ⟨?_, ?_, ?_, ?_, ?_⟩
  · rw [saveCorrectionReviewCore, saveLoop_fst]
    simp [List.enumFrom_length]
  · intro j hj hdj
    rw [saveCorrectionReviewCore, saveLoop_fst]
    rw [List.getElem?_map, List.getElem?_enumFrom, List.getElem?_eq_getElem hj]
    simp [reviewEntryOf, hdj, jsStartsWith_pending]
  · rw [saveCorrectionReviewCore, saveLoop_snd]
  · intro e he
    rw [saveCorrectionReviewCore, saveLoop_snd] at he
    rcases List.mem_filterMap.mp he with ⟨ic, _, hic⟩
    exact learnEntryOf_decision file ic.2 (ds ic.1) e hic
  · exact fun c d h => learnEntryOf_rejected_pending file c d h

/-- A concrete three-candidate session used to instantiate the review
state-machine theorems. -/
def demoCandidates : List CorrectionCandidate :=
  [{ location := "p1", original := "a1", corrected := "b1", category := "ocr", reason := "r1" },
   { location := "p2", original := "a2", corrected := "b2", category := "ocr", reason := "r2" },
   { location := "p3", original := "a3", corrected := "b3", category := "ocr", reason := "r3" }]

/-- Decisions for `demoCandidates`: two confirmed, one rejected. -/
def demoDecisions : DecisionMap := fun i =>
  if i = 0 then some "confirmed"
  else if i = 1 then some "confirmed"
  else if i = 2 then some "rejected"
  else none

/-- Decisions for `demoCandidates` with candidate 1 still undecided. -/
def demoDecisionsPartial : DecisionMap := fun i =>
  if i = 0 then some "confirmed" else none

/-- Witness for C1 at the spec's concrete example: three candidates, two
confirmed and one rejected forward exactly two learning records; an
undecided candidate is persisted as `pending`; a rejected decision is
never forwarded. -/
theorem saveCorrectionReview_spec_witness :
    (saveCorrectionReviewCore "a.html" demoCandidates demoDecisions).2.length = 2
    ∧ (saveCorrectionReviewCore "a.html" demoCandidates demoDecisions).1.length = 3
    ∧ ((saveCorrectionReviewCore "a.html" demoCandidates demoDecisionsPartial).1[1]?).map
        ReviewDecisionEntry.decision = some "pending"
    ∧ learnEntryOf "a.html" (demoCandidates.get ⟨2, by decide⟩) (some "rejected") = none := by
  refine ⟨by decide, ?_, ?_, ?_⟩
  · exact (saveCorrectionReview_spec "a.html" demoCandidates demoDecisions).1
  · exact (saveCorrectionReview_spec "a.html" demoCandidates demoDecisionsPartial).2.1
      1 (by decide) (by decide)
  · exact (saveCorrectionReview_spec "a.html" demoCandidates demoDecisions).2.2.2.2
      (demoCandidates.get ⟨2, by decide⟩) (some "rejected") (Or.inl rfl)

/-- Outcome of one awaited JS call: normal return or a thrown error. -/
inductive JsResult (α : Type) where
  | ok (value : α)
  | thrown (message : String)
deriving Repr, DecidableEq

/-- Observable outcome of the effectful tail of `saveCorrectionReview`:
whether the review record was written, whether the learning data was
collected, and whether the operation reported success (the success
alert) rather than failure (the save-failed alert). -/
structure SaveEffect where
  reviewWritten : Bool
  learnCollected : Bool
  reportedSuccess : Bool
deriving Repr, DecidableEq

/-- The try/catch structure of `saveCorrectionReview` (src/preload.js):
the outer `try` awaits `writeJsonFile`; when the learning list is
non-empty an inner `try` awaits `collectCorrections` and swallows its
exception with only a console warning; the success alert runs whenever
the write succeeded. -/
def saveReviewEffects (writeResult : JsResult Unit) (toLearn : List LearnEntry)
    (collectResult : JsResult Unit) : SaveEffect :=
  match writeResult with
  | .thrown _ => { reviewWritten := false, learnCollected := false, reportedSuccess := false }
  | .ok _ =>
    match toLearn, collectResult with
    | [], _ => { reviewWritten := true, learnCollected := false, reportedSuccess := true }
    | _ :: _, .ok _ => { reviewWritten := true, learnCollected := true, reportedSuccess := true }
    | _ :: _, .thrown _ => { reviewWritten := true, learnCollected := false, reportedSuccess := true }

/-- C9: when the review-record write succeeds but forwarding the
learning list throws, the save still completes as a success: the record
stays written and the operation reports success. -/
theorem saveReviewEffects_learnFailure (toLearn : List LearnEntry) (msg : String) :
    (saveReviewEffects (JsResult.ok ()) toLearn (JsResult.thrown msg)).reviewWritten = true
    ∧ (saveReviewEffects (JsResult.ok ()) toLearn (JsResult.thrown msg)).reportedSuccess
        = true := by
  cases toLearn <;> exact ⟨rfl, rfl⟩

/-! ## Pattern store (server/supabase_schema.sql) -/

/-- One row of the `error_patterns` table.  `last_used` is a timestamp,
`0` when never used (SQL `NULL`). -/
structure ErrorPattern where
  original : String
  corrected : String
  source : String
  category : String
  reason : String
  frequency : Nat
  usage_count : Nat
  is_active : Bool
  last_used : Nat
deriving Repr, DecidableEq

/-- The `effectiveness_score` column of the
`pattern_effectiveness_ranking` view: `usage_count * 2 + frequency`. -/
def effectiveness_score (p : ErrorPattern) : Nat := p.usage_count * 2 + p.frequency

/-- The `ORDER BY effectiveness_score DESC` relation of the
`pattern_effectiveness_ranking` view. -/
def rankedBefore (a b : ErrorPattern) : Prop :=
  effectiveness_score b ≤ effectiveness_score a

instance : DecidableRel rankedBefore := fun a b =>
  inferInstanceAs (Decidable (effectiveness_score b ≤ effectiveness_score a))

instance : IsTotal ErrorPattern rankedBefore :=
  ⟨fun a b => by
    unfold rankedBefore
    exact Nat.le_total (effectiveness_score b) (effectiveness_score a)⟩

instance : IsTrans ErrorPattern rankedBefore :=
  ⟨fun a b c hab hbc => by
    unfold rankedBefore at hab hbc ⊢
    exact Nat.le_trans hbc hab⟩

/-- The `pattern_effectiveness_ranking` view
(server/supabase_schema.sql): the active rows of `error_patterns`,
ordered by `effectiveness_score` descending. -/
def pattern_effectiveness_ranking (rows : List ErrorPattern) : List ErrorPattern :=
  (rows.filter (fun p => p.is_active)).insertionSort rankedBefore

/-- The pattern with (usage_count, frequency) = (5, 1) of the spec's
ranking example. -/
def demoPatternA : ErrorPattern :=
  { original := "a", corrected := "b", source := "image_pdf", category := "ocr",
    reason := "r", frequency := 1, usage_count := 5, is_active := true, last_used := 0 }

/-- The pattern with (usage_count, frequency) = (1, 5) of the spec's
ranking example. -/
def demoPatternB : ErrorPattern :=
  { original := "c", corrected := "d", source := "image_pdf", category := "ocr",
    reason := "r", frequency := 5, usage_count := 1, is_active := true, last_used := 0 }

/-- C2: the effectiveness score of a pattern is
`usage_count * 2 + frequency`; the ranking view lists only active rows
in descending score order; at the spec's example, (5,1) scores 11, (1,5)
scores 7, and (5,1) ranks first even when stored after (1,5). -/
theorem pattern_effectiveness_spec (rows : List ErrorPattern) :
    (∀ p : ErrorPattern, effectiveness_score p = p.usage_count * 2 + p.frequency)
    ∧ (pattern_effectiveness_ranking rows).Sorted rankedBefore
    ∧ (∀ p ∈ pattern_effectiveness_ranking rows, p.is_active = true)
    ∧ effectiveness_score demoPatternA = 11
    ∧ effectiveness_score demoPatternB = 7
    ∧ pattern_effectiveness_ranking [demoPatternB, demoPatternA]
        = [demoPatternA, demoPatternB] := by
  refine ⟨fun _ => rfl, List.sorted_insertionSort rankedBefore _, ?_, rfl, rfl, by decide⟩
  intro p hp
  have hperm := List.perm_insertionSort rankedBefore (rows.filter (fun p => p.is_active))
  have hmem : p ∈ rows.filter (fun p => p.is_active) := hperm.mem_iff.mp hp
  exact (List.mem_filter.mp hmem).2

/-- Witness for C2: the membership conjunct instantiated at the
spec's two-pattern example. -/
theorem pattern_effectiveness_spec_witness :
    demoPatternA.is_active = true
    ∧ pattern_effectiveness_ranking [demoPatternB, demoPatternA]
        = [demoPatternA, demoPatternB] :=
  ⟨(pattern_effectiveness_spec [demoPatternB, demoPatternA]).2.2.1 demoPatternA (by decide),
   (pattern_effectiveness_spec [demoPatternB, demoPatternA]).2.2.2.2.2⟩

/-- The match condition of the `idx_patterns_unique` index
(server/supabase_schema.sql): equality of the (original, corrected,
source) triple. -/
def tripleMatches (p : ErrorPattern) (o c s : String) : Bool :=
  p.original == o && p.corrected == c && p.source == s

/-- The uniqueness invariant enforced by `idx_patterns_unique`:
distinct rows differ in their (original, corrected, source) triple. -/
def UniqueTriples (rows : List ErrorPattern) : Prop :=
  rows.Pairwise
    (fun a b => ¬(a.original = b.original ∧ a.corrected = b.corrected ∧ a.source = b.source))

/-- Number of rows matching a given triple. -/
def countTriple (rows : List ErrorPattern) (o c s : String) : Nat :=
  (rows.filter (fun p => tripleMatches p o c s)).length

/-- A freshly inserted `error_patterns` row, with the column defaults of
server/supabase_schema.sql: `frequency DEFAULT 1`, `usage_count DEFAULT
0`, `is_active DEFAULT TRUE`, `last_used` NULL (0). -/
def newPattern (o c s cat r : String) : ErrorPattern :=
  { original := o, corrected := c, source := s, category := cat, reason := r,
    frequency := 1, usage_count := 0, is_active := true, last_used := 0 }

/-- Modelled from the spec: the server-side `record` upsert is not under
src/; only the `idx_patterns_unique` index and the column defaults are.
Per §4.4, `record` inserts a new ErrorPattern or increments `frequency`
on an existing (original, corrected, source) triple. -/
def recordPattern (rows : List ErrorPattern) (o c s cat r : String) : List ErrorPattern :=
  if rows.any (fun p => tripleMatches p o c s) then
    rows.map (fun p =>
      if tripleMatches p o c s then { p with frequency := p.frequency + 1 } else p)
  else
    rows ++ [newPattern o c s cat r]

theorem tripleMatches_iff (p : ErrorPattern) (o c s : String) :
    tripleMatches p o c s = true ↔ (p.original = o ∧ p.corrected = c ∧ p.source = s) := by
  simp [tripleMatches, and_assoc]

theorem tripleMatches_bump (p : ErrorPattern) (o c s : String) (n : Nat) :
    tripleMatches { p with frequency := n } o c s = tripleMatches p o c s := rfl

theorem recordPattern_keeps_unique (rows : List ErrorPattern) (o c s cat r : String)
    (h : UniqueTriples rows) : UniqueTriples (recordPattern rows o c s cat r) := by
  by_cases hany : rows.any (fun p => tripleMatches p o c s) = true
  · rw [recordPattern, if_pos hany]
    rw [UniqueTriples, List.pairwise_map]
    refine h.imp ?_
    intro a b hab hc
    refine hab ?_
    have hfields : ∀ p : ErrorPattern,
        (if tripleMatches p o c s then { p with frequency := p.frequency + 1 } else p).original
            = p.original
        ∧ (if tripleMatches p o c s then { p with frequency := p.frequency + 1 } else p).corrected
            = p.corrected
        ∧ (if tripleMatches p o c s then { p with frequency := p.frequency + 1 } else p).source
            = p.source := by
      intro p
      by_cases hp : tripleMatches p o c s = true <;> simp [hp]
    obtain ⟨ha1, ha2, ha3⟩ := hfields a
    obtain ⟨hb1, hb2, hb3⟩ := hfields b
    obtain ⟨hc1, hc2, hc3⟩ := hc
    exact ⟨ha1 ▸ hb1 ▸ hc1, ha2 ▸ hb2 ▸ hc2, ha3 ▸ hb3 ▸ hc3⟩
  · have hany2 : rows.any (fun p => tripleMatches p o c s) = false :=
      Bool.eq_false_iff.mpr hany
    rw [recordPattern, if_neg hany]
    rw [UniqueTriples, List.pairwise_append]
    refine ⟨h, List.pairwise_singleton _ _, ?_⟩
    intro a ha b hb hc
    have hb2 : b = newPattern o c s cat r := by simpa using hb
    subst hb2
    have hna := (List.any_eq_false.mp hany2) a ha
    refine hna ((tripleMatches_iff a o c s).mpr ?_)
    simpa [newPattern] using hc

theorem recordPattern_existing_length (rows : List ErrorPattern) (o c s cat r : String)
    (hany : rows.any (fun p => tripleMatches p o c s) = true) :
    (recordPattern rows o c s cat r).length = rows.length := by
  rw [recordPattern, if_pos hany, List.length_map]

theorem countTriple_recordPattern_map (rows : List ErrorPattern) (o c s : String) :
    countTriple (rows.map (fun p =>
        if tripleMatches p o c s then { p with frequency := p.frequency + 1 } else p)) o c s
      = countTriple rows o c s := by
  rw [countTriple, List.filter_map]
  have hco : ((fun p => tripleMatches p o c s) ∘
      (fun p => if tripleMatches p o c s then { p with frequency := p.frequency + 1 } else p))
        = fun p => tripleMatches p o c s := by
    funext p
    by_cases hp : tripleMatches p o c s = true <;>
      simp [Function.comp, tripleMatches_bump, hp]
  rw [hco, List.length_map, countTriple]

/-- C3: the uniqueness invariant on (original, corrected, source) is
preserved by `recordPattern`; submitting an already-present triple never
adds a row; starting from a store without the triple, recording it twice
leaves exactly one matching row and that row has frequency 2. -/
theorem recordPattern_spec (rows : List ErrorPattern) (o c s cat r : String)
    (h : UniqueTriples rows) :
    UniqueTriples (recordPattern rows o c s cat r)
    ∧ (rows.any (fun p => tripleMatches p o c s) = true →
        (recordPattern rows o c s cat r).length = rows.length)
    ∧ (rows.any (fun p => tripleMatches p o c s) = false →
        countTriple (recordPattern (recordPattern rows o c s cat r) o c s cat r) o c s = 1
        ∧ ∀ p ∈ recordPattern (recordPattern rows o c s cat r) o c s cat r,
            tripleMatches p o c s = true → p.frequency = 2) := by
  refine ⟨recordPattern_keeps_unique rows o c s cat r h,
    recordPattern_existing_length rows o c s cat r, ?_⟩
  intro hno
  have hmNew : tripleMatches (newPattern o c s cat r) o c s = true := by
    simp [tripleMatches, newPattern]
  have h1 : recordPattern rows o c s cat r = rows ++ [newPattern o c s cat r] := by
    rw [recordPattern, if_neg (by simp [hno])]
  have hany2 : (rows ++ [newPattern o c s cat r]).any
      (fun p => tripleMatches p o c s) = true := by
    simp [List.any_append, hno, hmNew]
  have h2 : recordPattern (recordPattern rows o c s cat r) o c s cat r
      = (rows ++ [newPattern o c s cat r]).map (fun p =>
          if tripleMatches p o c s then { p with frequency := p.frequency + 1 } else p) := by
    rw [h1, recordPattern, if_pos hany2]
  have hfilter : (rows ++ [newPattern o c s cat r]).filter
      (fun p => tripleMatches p o c s) = [newPattern o c s cat r] := by
    rw [List.filter_append]
    have hr : rows.filter (fun p => tripleMatches p o c s) = [] :=
      List.filter_eq_nil_iff.mpr (List.any_eq_false.mp hno)
    rw [hr, List.nil_append]
    simp [hmNew]
  constructor
  · rw [h2, countTriple_recordPattern_map, countTriple, hfilter]
    rfl
  · intro p hp hmp
    rw [h2] at hp
    rcases List.mem_map.mp hp with ⟨q, hq, hfq⟩
    have hmq : tripleMatches q o c s = true := by
      by_cases hb : tripleMatches q o c s = true
      · exact hb
      · rw [← hfq] at hmp
        rw [if_neg hb] at hmp
        exact absurd hmp hb
    have hq2 : q = newPattern o c s cat r := by
      rcases List.mem_append.mp hq with hq1 | hq1
      · exact absurd hmq ((List.any_eq_false.mp hno) q hq1)
      · simpa using hq1
    subst hq2
    rw [if_pos hmq] at hfq
    rw [← hfq]
    rfl

/-- Witness for C3: from the empty store, recording the same triple
twice yields exactly one matching row and frequency 2. -/
theorem recordPattern_spec_witness :
    UniqueTriples (recordPattern [] "ga1jo" "je1jo" "image_pdf" "ocr" "why")
    ∧ countTriple
        (recordPattern (recordPattern [] "ga1jo" "je1jo" "image_pdf" "ocr" "why")
          "ga1jo" "je1jo" "image_pdf" "ocr" "why") "ga1jo" "je1jo" "image_pdf" = 1 := by
  refine ⟨(recordPattern_spec [] "ga1jo" "je1jo" "image_pdf" "ocr" "why" List.Pairwise.nil).1, ?_⟩
  exact ((recordPattern_spec [] "ga1jo" "je1jo" "image_pdf" "ocr" "why"
    List.Pairwise.nil).2.2 rfl).1

/-- The prompt ranking order of §4.4: effectiveness descending, ties
broken by most-recent `last_used`. -/
def promptOrder (a b : ErrorPattern) : Prop :=
  effectiveness_score b < effectiveness_score a
  ∨ (effectiveness_score a = effectiveness_score b ∧ b.last_used ≤ a.last_used)

instance : DecidableRel promptOrder := fun a b =>
  inferInstanceAs (Decidable (effectiveness_score b < effectiveness_score a
    ∨ (effectiveness_score a = effectiveness_score b ∧ b.last_used ≤ a.last_used)))

instance : IsTotal ErrorPattern promptOrder :=
  ⟨fun a b => by
    unfold promptOrder
    rcases Nat.lt_trichotomy (effectiveness_score a) (effectiveness_score b) with h | h | h
    · exact Or.inr (Or.inl h)
    · rcases Nat.le_total b.last_used a.last_used with hl | hl
      · exact Or.inl (Or.inr ⟨h, hl⟩)
      · exact Or.inr (Or.inr ⟨h.symm, hl⟩)
    · exact Or.inl (Or.inl h)⟩

instance : IsTrans ErrorPattern promptOrder :=
  ⟨fun a b c hab hbc => by
    unfold promptOrder at hab hbc ⊢
    rcases hab with hab | ⟨hab1, hab2⟩
    · rcases hbc with hbc | ⟨hbc1, hbc2⟩
      · exact Or.inl (Nat.lt_trans hbc hab)
      · exact Or.inl (by omega)
    · rcases hbc with hbc | ⟨hbc1, hbc2⟩
      · exact Or.inl (by omega)
      · exact Or.inr ⟨by omega, Nat.le_trans hbc2 hab2⟩⟩

/-- Modelled from the spec: the server-side `buildPrompt(source, limit)`
implementation is not under src/; only the
`pattern_effectiveness_ranking` view (which orders by
`effectiveness_score DESC` with no stated tie-break) is.  Per §4.4,
`buildPrompt` returns the top-`limit` active patterns of the given
source, ranked by effectiveness descending with ties broken by
most-recent `last_used`. -/
def buildPrompt (rows : List ErrorPattern) (source : String) (limit : Nat) :
    List ErrorPattern :=
  ((rows.filter (fun p => p.is_active && p.source == source)).insertionSort promptOrder).take
    limit

/-- C6: `buildPrompt` returns at most `limit` patterns, all active and of
the requested source, sorted by effectiveness descending with ties
broken by most-recent `last_used`, and every returned pattern ranks at
least as high as every matching pattern left out. -/
theorem buildPrompt_spec (rows : List ErrorPattern) (source : String) (limit : Nat) :
    (buildPrompt rows source limit).Sorted promptOrder
    ∧ (buildPrompt rows source limit).length
        = min limit (rows.filter (fun p => p.is_active && p.source == source)).length
    ∧ (∀ p ∈ buildPrompt rows source limit, p.is_active = true ∧ p.source = source)
    ∧ (∀ p ∈ buildPrompt rows source limit,
        ∀ q ∈ ((rows.filter (fun p => p.is_active && p.source == source)).insertionSort
          promptOrder).drop limit, promptOrder p q) := by
  refine ⟨?_, ?_, ?_, ?_⟩
  · rw [buildPrompt]
    exact (List.sorted_insertionSort promptOrder _).take
  · rw [buildPrompt, List.length_take, List.length_insertionSort]
  · intro p hp
    have hp2 : p ∈ (rows.filter (fun p => p.is_active && p.source == source)).insertionSort
        promptOrder := List.mem_of_mem_take hp
    have hp3 : p ∈ rows.filter (fun p => p.is_active && p.source == source) :=
      (List.perm_insertionSort promptOrder _).mem_iff.mp hp2
    have hp4 := (List.mem_filter.mp hp3).2
    rw [Bool.and_eq_true, beq_iff_eq] at hp4
    exact hp4
  · intro p hp q hq
    exact (List.sorted_insertionSort promptOrder _).rel_of_mem_take_of_mem_drop hp hq

/-- Two equal-effectiveness patterns distinguished only by `last_used`,
for the C6 tie-break witness. -/
def demoTieOld : ErrorPattern :=
  { original := "x", corrected := "y", source := "image_pdf", category := "ocr",
    reason := "r", frequency := 3, usage_count := 2, is_active := true, last_used := 10 }

/-- The more recently used of the two tied patterns. -/
def demoTieRecent : ErrorPattern :=
  { original := "u", corrected := "v", source := "image_pdf", category := "ocr",
    reason := "r", frequency := 3, usage_count := 2, is_active := true, last_used := 99 }

/-- Witness for C6: on two equally effective patterns the more recently
used one is returned first, and the returned patterns are active, of the
requested source, and rank ahead of the dropped ones. -/
theorem buildPrompt_spec_witness :
    buildPrompt [demoTieOld, demoTieRecent] "image_pdf" 2 = [demoTieRecent, demoTieOld]
    ∧ (demoTieRecent.is_active = true ∧ demoTieRecent.source = "image_pdf")
    ∧ promptOrder demoTieRecent demoTieOld := by
  refine ⟨by decide, ?_, ?_⟩
  · refine (buildPrompt_spec [demoTieOld, demoTieRecent] "image_pdf" 2).2.2.1
      demoTieRecent ?_
    decide
  · refine (buildPrompt_spec [demoTieOld, demoTieRecent] "image_pdf" 1).2.2.2
      demoTieRecent ?_ demoTieOld ?_ <;> decide

/-! ## Credit ledger (src/main.js handler, engine credit manager) -/

/-- The JSON record that the `check-credits` IPC handler resolves with:
the parsed credit-manager output, or a denial record on failure. -/
structure CreditCheckReply where
  has_credits : Bool
  message : Option String
deriving Repr, DecidableEq

/-- The `check-credits` IPC handler of src/main.js.  `pythonCmd` is the
result of `getPythonCommand()` (`none` when no Python 3 interpreter is
found); `parsed` is the result of `JSON.parse` on the credit-manager
process output (`none` when the output is not valid JSON).  The handler
resolves `{has_credits: false, message: 'Python not found'}` without
Python, the parsed record on success, and `{has_credits: false}` when
parsing throws.  `pageCount` is forwarded to the process unchanged. -/
def checkCreditsHandler (pageCount : Nat) (pythonCmd : Option String)
    (parsed : Option CreditCheckReply) : CreditCheckReply :=
  match pythonCmd, pageCount with
  | none, _ => { has_credits := false, message := some "Python not found" }
  | some _, _ =>
    match parsed with
    | some result => result
    | none => { has_credits := false, message := none }

/-- C10: on any failure — no Python 3 interpreter, or credit-manager
output that is not valid JSON — the `check-credits` handler resolves
with `has_credits: false`; it never authorizes by default. -/
theorem checkCreditsHandler_failure_denies (pageCount : Nat) (cmd : Option String)
    (parsed : Option CreditCheckReply) :
    (checkCreditsHandler pageCount none parsed).has_credits = false
    ∧ (checkCreditsHandler pageCount cmd none).has_credits = false := by
  cases cmd <;> exact ⟨rfl, rfl⟩

/-- One local credit account: the file-backed record
{email, credits, total_credits_used}. -/
structure CreditAccount where
  email : String
  credits : Nat
  total_credits_used : Nat
deriving Repr, DecidableEq

/-- The configured administrator allow-list (the engine documentation
names `kjccjk@hanmail.net` as the unlimited administrator identity). -/
def ADMIN_EMAILS : List String := ["kjccjk@hanmail.net"]

/-- Whether an account is an administrator account. -/
def isAdminAccount (acct : CreditAccount) : Bool := ADMIN_EMAILS.contains acct.email

/-- Per-page price in currency units (the engine documentation prices a
100-page check at 5,500 units). -/
def PRICE_PER_PAGE : Nat := 55

/-- Result of a credit check: authorization and the cost estimate. -/
structure CheckCreditsReply where
  authorized : Bool
  costEstimate : Nat
deriving Repr, DecidableEq

/-- Modelled from the spec: `engine/credit_manager.py` is not under
src/; only its caller (the `check-credits` handler of src/main.js) and
the engine documentation are.  Per §4.6, `checkCredits(estimatedPages)`
computes a fixed per-page cost and always authorizes administrator
accounts regardless of balance. -/
def checkCredits (acct : CreditAccount) (estimatedPages : Nat) : CheckCreditsReply :=
  let cost := estimatedPages * PRICE_PER_PAGE
  if isAdminAccount acct then { authorized := true, costEstimate := cost }
  else { authorized := decide (cost ≤ acct.credits), costEstimate := cost }

/-- Modelled from the spec: `engine/credit_manager.py` is not under
src/.  Per §4.6, `debit(actualPages)` subtracts the per-page cost from
the balance and is a no-op for administrator accounts. -/
def debit (acct : CreditAccount) (actualPages : Nat) : CreditAccount :=
  if isAdminAccount acct then acct
  else
    { acct with
      credits := acct.credits - actualPages * PRICE_PER_PAGE,
      total_credits_used := acct.total_credits_used + actualPages * PRICE_PER_PAGE }

/-- C7: for every page count and balance, an administrator account is
always authorized by `checkCredits`, and `debit` leaves the account
unchanged. -/
theorem admin_checkCredits_debit (acct : CreditAccount) (pages1 pages2 : Nat)
    (h : isAdminAccount acct = true) :
    (checkCredits acct pages1).authorized = true ∧ debit acct pages2 = acct := by
  constructor
  · rw [checkCredits, if_pos h]
  · rw [debit, if_pos h]

/-- Witness for C7: the allow-listed administrator identity with a zero
balance is authorized for 1000 pages and is not debited. -/
theorem admin_checkCredits_debit_witness :
    (checkCredits { email := "kjccjk@hanmail.net", credits := 0, total_credits_used := 0 }
      1000).authorized = true
    ∧ debit { email := "kjccjk@hanmail.net", credits := 0, total_credits_used := 0 } 1000
      = { email := "kjccjk@hanmail.net", credits := 0, total_credits_used := 0 } :=
  admin_checkCredits_debit
    { email := "kjccjk@hanmail.net", credits := 0, total_credits_used := 0 }
    1000 1000 (by decide)

/-! ## PDF classifier (engine documentation, `_analyze_pdf`) -/

/-- `_analyze_pdf(file_path)` of the engine documentation: sample the
first 3 pages, sum the length of `page.extract_text() or ""` over the
sample, and report digital when the total is strictly greater than 100.
A page whose `extract_text()` returns `None` is modelled as `none`. -/
def analyze_pdf (pages : List (Option String)) : Bool :=
  let sample_pages := pages.take 3
  let total_text_len : Nat := (sample_pages.map (fun t => (t.getD "").length)).sum
  decide (total_text_len > 100)

/-- The processing route of a classified document. -/
inductive Route where
  | localRoute
  | remoteRoute
deriving Repr, DecidableEq

/-- The detected kind of a classified PDF. -/
inductive PdfKind where
  | digitalPdf
  | imagePdf
deriving Repr, DecidableEq

/-- The PDF branch of the classifier routing table: a digital PDF is
processed locally, an image PDF goes to the remote recognition API. -/
def classifyPdf (pages : List (Option String)) : PdfKind × Route :=
  if analyze_pdf pages then (PdfKind.digitalPdf, Route.localRoute)
  else (PdfKind.imagePdf, Route.remoteRoute)

/-- Total text length over the sampled first three pages. -/
def sampledTextLen (pages : List (Option String)) : Nat :=
  ((pages.take 3).map (fun t => (t.getD "").length)).sum

/-- Concatenation of the extracted text of the sampled pages. -/
def sampledConcat (pages : List (Option String)) : String :=
  (pages.take 3).foldl (fun acc t => acc ++ t.getD "") ""

theorem sampledConcat_length_aux (l : List (Option String)) (acc : String) :
    (l.foldl (fun acc t => acc ++ t.getD "") acc).length
      = acc.length + (l.map (fun t => (t.getD "").length)).sum := by
  induction l generalizing acc with
  | nil => simp
  | cons t rest ih =>
    simp only [List.foldl_cons, List.map_cons, List.sum_cons]
    rw [ih, String.length_append]
    omega

/-- C8: the classifier samples the first 3 pages; when the concatenated
extracted text is strictly longer than 100 characters the PDF is
digital-pdf with the local route, and at 100 characters or fewer
(including exactly 100) it is image-pdf with the remote route; the
summed sample length equals the length of the concatenated sample
text. -/
theorem classifyPdf_spec (pages : List (Option String)) :
    (sampledTextLen pages > 100 →
      classifyPdf pages = (PdfKind.digitalPdf, Route.localRoute))
    ∧ (sampledTextLen pages ≤ 100 →
      classifyPdf pages = (PdfKind.imagePdf, Route.remoteRoute))
    ∧ (sampledConcat pages).length = sampledTextLen pages := by
  have heq : analyze_pdf pages = decide (sampledTextLen pages > 100) := rfl
  refine ⟨?_, ?_, ?_⟩
  · intro h
    have ht : analyze_pdf pages = true := by
      rw [heq]
      exact decide_eq_true h
    simp [classifyPdf, ht]
  · intro h
    have hf : analyze_pdf pages = false := by
      rw [heq]
      simp only [decide_eq_false_iff_not]
      omega
    simp [classifyPdf, hf]
  · simp [sampledConcat, sampledConcat_length_aux, sampledTextLen]

/-- A page of exactly 101 characters of text. -/
def demoPage101 : Option String := some (String.mk (List.replicate 101 'a'))

/-- A page of exactly 100 characters of text. -/
def demoPage100 : Option String := some (String.mk (List.replicate 100 'a'))

/-- Witness for C8: 101 sampled characters classify digital-pdf/local,
exactly 100 classify image-pdf/remote. -/
theorem classifyPdf_spec_witness :
    classifyPdf [demoPage101] = (PdfKind.digitalPdf, Route.localRoute)
    ∧ classifyPdf [demoPage100, none] = (PdfKind.imagePdf, Route.remoteRoute) :=
  ⟨(classifyPdf_spec [demoPage101]).1 (by decide),
   (classifyPdf_spec [demoPage100, none]).2.1 (by decide)⟩

end Converter
